import Mathlib

/-! Shallow embedding of the property-value model and tabular-output parsing
engine of the go-zfs repository: the tabular decoder (`parseTabular`), the
property-map builder (`newProperties`), the property store with its typed
accessors, the size/time/bool codecs, the command-argument encoder
(`propertyMapFlags`), and the entity wrappers (`NewDataset`, `newPool`).
Byte buffers and Go strings are modelled as `List Char` / `String`, Go maps as
association lists with `mapFind` / `mapSet`, `uint64` as `Nat` with explicit
`2 ^ 64` bounds, `int64` as `Int` with explicit `2 ^ 63` bounds, and
`time.Time` instants as Unix epoch seconds (`Int`). -/

/-- ASCII decimal digit, the character class 0-9 used by the codecs. -/
def isDigitChar (c : Char) : Bool := '0' ≤ c && c ≤ '9'

/-- ASCII letter, the character class a-zA-Z of the size regexp. -/
def isAsciiLetter (c : Char) : Bool := ('a' ≤ c && c ≤ 'z') || ('A' ≤ c && c ≤ 'Z')

/-- Whitespace as matched by the regexp escape for spaces and by TrimSpace,
restricted to ASCII. -/
def isSpaceChar (c : Char) : Bool :=
  c = ' ' || c = '\t' || c = '\n' || c = '\r' || c = '\x0b' || c = '\x0c'

/-- Numeric value of a string of ASCII digits, most significant first. -/
def digitsToNat (cs : List Char) : Nat :=
  cs.foldl (fun n c => n * 10 + (c.toNat - 48)) 0

/-- First-some choice on options; used to state fold characterizations. -/
def oor (a b : Option α) : Option α :=
  match a with
  | some x => some x
  | none => b

/-- Lookup in an association-list model of a Go map. -/
def mapFind (m : List (String × α)) (k : String) : Option α :=
  (m.find? (fun kv => kv.1 == k)).map (fun kv => kv.2)

/-- Go map assignment: replace any binding of the key, keeping one entry per
key. -/
def mapSet (m : List (String × α)) (k : String) (v : α) : List (String × α) :=
  m.filter (fun kv => kv.1 != k) ++ [(k, v)]

/-- Split a character list on a separator, keeping empty segments, exactly as
bytes.Split and strings.Split do: n separators yield n+1 segments. -/
def splitOnChar (sep : Char) : List Char → List (List Char)
  | [] => [[]]
  | c :: cs =>
    match splitOnChar sep cs with
    | h :: t => if c = sep then [] :: h :: t else (c :: h) :: t
    | [] => [[c]]

/-- strings.TrimSpace: strip leading and trailing whitespace. -/
def trimSpaceList (cs : List Char) : List Char :=
  ((cs.dropWhile isSpaceChar).reverse.dropWhile isSpaceChar).reverse

/-- strings.TrimSuffix: remove the suffix when present, else return the string
unchanged. -/
def trimSuffixStr (s suffix : String) : String :=
  if suffix.data.isSuffixOf s.data then
    String.mk (s.data.take (s.data.length - suffix.data.length))
  else s

/-- Property represents a single ZFS property: the owning entity's name, the
property's own name, its raw value, and its source. -/
structure Property where
  name : String
  property : String
  value : String
  source : String
deriving DecidableEq, Repr, Inhabited

/-- Properties is a collection of ZFS properties keyed by property name. -/
abbrev Properties := List (String × Property)

/-- parseTabular parses a tab-delimited byte slice into records: the input is
split on newline bytes (byte 10) and each line is split on TAB. -/
def parseTabular (data : List Char) : List (List String) :=
  (splitOnChar '\n' data).map (fun line => (splitOnChar '\t' line).map String.mk)

/-- The loop body of newProperties: a record is used only when it has exactly
4 fields and a non-empty first field; it is then stored under its entity name
and property name. -/
def newPropertiesStep (r : List (String × Properties)) (record : List String) :
    List (String × Properties) :=
  match record with
  | [a, b, c, d] =>
    if a ≠ "" then
      mapSet r a (mapSet ((mapFind r a).getD []) b ⟨a, b, c, d⟩)
    else r
  | _ => r

/-- newProperties groups a record slice into a map from entity name to that
entity's property map. -/
def newProperties (records : List (List String)) : List (String × Properties) :=
  records.foldl newPropertiesStep []

/-- Modelled from the spec: the unit table of the external general human-size
parser (humanize.ParseBytes) that parseSize delegates to; iB-suffixed units
are 1024-based binary units, bare or B-suffixed letters are 1000-based SI
units. -/
def unitMultiplier : String → Option Nat
  | "" => some 1
  | "B" => some 1
  | "KiB" => some 1024
  | "MiB" => some (1024 ^ 2)
  | "GiB" => some (1024 ^ 3)
  | "TiB" => some (1024 ^ 4)
  | "PiB" => some (1024 ^ 5)
  | "K" => some 1000
  | "KB" => some 1000
  | "M" => some (1000 ^ 2)
  | "MB" => some (1000 ^ 2)
  | "G" => some (1000 ^ 3)
  | "GB" => some (1000 ^ 3)
  | "T" => some (1000 ^ 4)
  | "TB" => some (1000 ^ 4)
  | "P" => some (1000 ^ 5)
  | "PB" => some (1000 ^ 5)
  | _ => none

/-- Modelled from the spec: the external general human-size parser
(humanize.ParseBytes), restricted to decimal digit strings with an optional
unit suffix; the result is bounded to the uint64 range. -/
def parseBytes (s : String) : Option Nat :=
  let ds := s.data.takeWhile isDigitChar
  let unit := String.mk (s.data.dropWhile isDigitChar)
  if ds.isEmpty then none
  else
    match unitMultiplier unit with
    | some m => if digitsToNat ds * m < 2 ^ 64 then some (digitsToNat ds * m) else none
    | none => none

/-- The anchored regexp of parseSize: one or more digits, optional whitespace,
then exactly one ASCII letter. -/
def matchZfsIEC (cs : List Char) : Bool :=
  let ds := cs.takeWhile isDigitChar
  let tail := (cs.dropWhile isDigitChar).dropWhile isSpaceChar
  !ds.isEmpty &&
    match tail with
    | [l] => isAsciiLetter l
    | _ => false

/-- parseSize: trim, and when the value is digits followed by one bare unit
letter, append "iB" to force a binary (1024-based) interpretation before
delegating to the general human-size parser. -/
def parseSize (size : String) : Option Nat :=
  let s := String.mk (trimSpaceList size.data)
  let s2 := if matchZfsIEC s.data then s ++ "iB" else s
  parseBytes s2

/-- parseBool: only the six exact spellings of on/enabled decode to true. -/
def parseBool (str : String) : Bool :=
  match str with
  | "on" => true
  | "On" => true
  | "ON" => true
  | "enabled" => true
  | "Enabled" => true
  | "ENABLED" => true
  | _ => false

/-- Modelled from the spec: strconv.ParseUint with base 10 and bit size 64:
decimal digits only, no sign, bounded to the uint64 range. -/
def goParseUint (s : String) : Option Nat :=
  if !s.data.isEmpty && s.data.all isDigitChar then
    if digitsToNat s.data < 2 ^ 64 then some (digitsToNat s.data) else none
  else none

/-- Modelled from the spec: strconv.ParseInt with base 10 and bit size 64: an
optional sign followed by decimal digits, bounded to the int64 range. -/
def goParseInt (s : String) : Option Int :=
  let core : List Char → Option Nat := fun cs =>
    if !cs.isEmpty && cs.all isDigitChar then some (digitsToNat cs) else none
  match s.data with
  | '+' :: rest => (core rest).bind (fun n => if n < 2 ^ 63 then some (Int.ofNat n) else none)
  | '-' :: rest => (core rest).bind (fun n => if n ≤ 2 ^ 63 then some (-(Int.ofNat n)) else none)
  | cs => (core cs).bind (fun n => if n < 2 ^ 63 then some (Int.ofNat n) else none)

/-- Modelled from the spec: the decimal fragment of strconv.ParseFloat, enough
for ratio values such as "1.5": an optional sign, digits with an optional
fractional part, returned exactly as a rational. -/
def goParseFloat (s : String) : Option ℚ :=
  let core : List Char → Option ℚ := fun cs =>
    match splitOnChar '.' cs with
    | [ip] => if !ip.isEmpty && ip.all isDigitChar then some (digitsToNat ip) else none
    | [ip, fp] =>
      if (!ip.isEmpty || !fp.isEmpty) && ip.all isDigitChar && fp.all isDigitChar then
        some ((digitsToNat ip : ℚ) + (digitsToNat fp : ℚ) / 10 ^ fp.length)
      else none
    | _ => none
  match s.data with
  | '+' :: rest => core rest
  | '-' :: rest => (core rest).map (fun q => -q)
  | cs => core cs

/-- Bytewise (codepoint) lexicographic comparison of character lists, the
order used by sort.Strings. -/
def charsLeb : List Char → List Char → Bool
  | [], _ => true
  | _ :: _, [] => false
  | a :: as, b :: bs => if a < b then true else if b < a then false else charsLeb as bs

/-- Lexicographic order on strings as a proposition. -/
abbrev strLe (a b : String) : Prop := charsLeb a.data b.data = true

lemma charsLeb_total : ∀ as bs : List Char, charsLeb as bs = true ∨ charsLeb bs as = true
  | [], _ => Or.inl rfl
  | _ :: _, [] => Or.inr rfl
  | a :: as, b :: bs => by
    rcases lt_trichotomy a b with hab | hab | hab
    · left
      simp only [charsLeb]
      rw [if_pos hab]
    · subst hab
      rcases charsLeb_total as bs with h | h
      · left
        simp only [charsLeb]
        rw [if_neg (lt_irrefl a), if_neg (lt_irrefl a), h]
      · right
        simp only [charsLeb]
        rw [if_neg (lt_irrefl a), if_neg (lt_irrefl a), h]
    · right
      simp only [charsLeb]
      rw [if_pos hab]

lemma charsLeb_trans :
    ∀ as bs cs : List Char,
      charsLeb as bs = true → charsLeb bs cs = true → charsLeb as cs = true
  | [], _, _, _, _ => rfl
  | _ :: _, [], _, h1, _ => by simp [charsLeb] at h1
  | _ :: _, _ :: _, [], _, h2 => by simp [charsLeb] at h2
  | a :: as, b :: bs, c :: cs, h1, h2 => by
    simp only [charsLeb] at h1 h2 ⊢
    rcases lt_trichotomy a b with hab | hab | hab
    · rcases lt_trichotomy b c with hbc | hbc | hbc
      · rw [if_pos (lt_trans hab hbc)]
      · subst hbc
        rw [if_pos hab]
      · rw [if_neg (lt_asymm hbc), if_pos hbc] at h2
        exact absurd h2 (by simp)
    · subst hab
      rw [if_neg (lt_irrefl a), if_neg (lt_irrefl a)] at h1
      rcases lt_trichotomy a c with hac | hac | hac
      · rw [if_pos hac]
      · subst hac
        rw [if_neg (lt_irrefl a), if_neg (lt_irrefl a)] at h2
        rw [if_neg (lt_irrefl a), if_neg (lt_irrefl a)]
        exact charsLeb_trans as bs cs h1 h2
      · rw [if_neg (lt_asymm hac), if_pos hac] at h2
        exact absurd h2 (by simp)
    · rw [if_neg (lt_asymm hab), if_pos hab] at h1
      exact absurd h1 (by simp)

lemma charsLeb_antisymm :
    ∀ as bs : List Char, charsLeb as bs = true → charsLeb bs as = true → as = bs
  | [], [], _, _ => rfl
  | [], _ :: _, _, h2 => by simp [charsLeb] at h2
  | _ :: _, [], h1, _ => by simp [charsLeb] at h1
  | a :: as, b :: bs, h1, h2 => by
    simp only [charsLeb] at h1 h2
    rcases lt_trichotomy a b with hab | hab | hab
    · rw [if_neg (lt_asymm hab), if_pos hab] at h2
      exact absurd h2 (by simp)
    · subst hab
      rw [if_neg (lt_irrefl a), if_neg (lt_irrefl a)] at h1
      rw [if_neg (lt_irrefl a), if_neg (lt_irrefl a)] at h2
      rw [charsLeb_antisymm as bs h1 h2]
    · rw [if_neg (lt_asymm hab), if_pos hab] at h1
      exact absurd h1 (by simp)

instance : IsTotal String strLe := ⟨fun a b => charsLeb_total a.data b.data⟩

instance : IsTrans String strLe := ⟨fun a b c => charsLeb_trans a.data b.data c.data⟩

instance : IsAntisymm String strLe :=
  ⟨fun a b h1 h2 => by
    cases a
    cases b
    exact congrArg String.mk (charsLeb_antisymm _ _ h1 h2)⟩

/-- sort.Strings: ascending lexical sort of a string slice. -/
def sortStrings (l : List String) : List String :=
  List.insertionSort strLe l

/-- propertyMapFlags renders a property map as a flat list of repeated
[flag, "name=value"] argument pairs, sorted by the combined "name=value"
string. -/
def propertyMapFlags (flag : String) (properties : List (String × String)) : List String :=
  let props := sortStrings (properties.map (fun kv => kv.1 ++ "=" ++ kv.2))
  props.foldl (fun r prop => r ++ [flag, prop]) []

/-- A property name key; spelt as an abbreviation so that accessor signatures
stay unambiguous next to the accessor called String. -/
abbrev PropName := String

/-- Result of a string-typed accessor: the value and a presence flag. -/
abbrev StrResult := String × Bool

/-- Result of an unsigned-integer-typed accessor. -/
abbrev NatResult := Nat × Bool

/-- Result of the ratio accessor. -/
abbrev RatResult := ℚ × Bool

/-- Result of the boolean accessor. -/
abbrev BoolResult := Bool × Bool

/-- Result of the time accessor: a UTC instant in epoch seconds, and a
presence flag. -/
abbrev TimeResult := Int × Bool

/-- Properties.String returns the raw value of the given property, with a
presence flag. -/
def Properties.String (p : Properties) (property : PropName) : StrResult :=
  match mapFind p property with
  | some prop => if prop.value ≠ "-" then (prop.value, true) else ("", false)
  | none => ("", false)

/-- Properties.Bytes returns the value of the given property as a number of
bytes. -/
def Properties.Bytes (p : Properties) (property : PropName) : NatResult :=
  match mapFind p property with
  | some prop =>
    if prop.value ≠ "-" then
      match parseSize prop.value with
      | some r => (r, true)
      | none => (0, false)
    else (0, false)
  | none => (0, false)

/-- Properties.Percent strips a trailing percent sign and parses an unsigned
integer. -/
def Properties.Percent (p : Properties) (property : PropName) : NatResult :=
  match mapFind p property with
  | some prop =>
    if prop.value ≠ "-" then
      match goParseUint (trimSuffixStr prop.value "%") with
      | some r => (r, true)
      | none => (0, false)
    else (0, false)
  | none => (0, false)

/-- Properties.Ratio strips a trailing "x" and parses a floating-point number,
modelled exactly as a rational. -/
def Properties.Ratio (p : Properties) (property : PropName) : RatResult :=
  match mapFind p property with
  | some prop =>
    if prop.value ≠ "-" then
      match goParseFloat (trimSuffixStr prop.value "x") with
      | some r => (r, true)
      | none => (0, false)
    else (0, false)
  | none => (0, false)

/-- Properties.Bool: only "on" and "enabled" spellings are true, all other
values decode to false. -/
def Properties.Bool (p : Properties) (property : PropName) : BoolResult :=
  match mapFind p property with
  | some prop =>
    if prop.value ≠ "" ∧ prop.value ≠ "-" then (parseBool prop.value, true)
    else (false, false)
  | none => (false, false)

/-- Properties.Uint64 parses the value as an unsigned 64-bit integer. -/
def Properties.Uint64 (p : Properties) (property : PropName) : NatResult :=
  match mapFind p property with
  | some prop =>
    if prop.value ≠ "" ∧ prop.value ≠ "-" then
      match goParseUint prop.value with
      | some r => (r, true)
      | none => (0, false)
    else (0, false)
  | none => (0, false)

/-- One ASCII digit as a number. -/
def readDigit (c : Char) : Option Nat :=
  if isDigitChar c then some (c.toNat - 48) else none

/-- Read one or two leading digits. -/
def read1or2 : List Char → Option (Nat × List Char)
  | a :: b :: rest =>
    match readDigit a, readDigit b with
    | some x, some y => some (10 * x + y, rest)
    | some x, none => some (x, b :: rest)
    | none, _ => none
  | [a] =>
    match readDigit a with
    | some x => some (x, [])
    | none => none
  | [] => none

/-- Read exactly two leading digits. -/
def read2 : List Char → Option (Nat × List Char)
  | a :: b :: rest =>
    match readDigit a, readDigit b with
    | some x, some y => some (10 * x + y, rest)
    | _, _ => none
  | _ => none

/-- Read exactly four leading digits. -/
def read4 : List Char → Option (Nat × List Char)
  | a :: b :: c :: d :: rest =>
    match readDigit a, readDigit b, readDigit c, readDigit d with
    | some w, some x, some y, some z => some (1000 * w + 100 * x + 10 * y + z, rest)
    | _, _, _, _ => none
  | _ => none

/-- Three-letter day-of-week abbreviations of the time layout. -/
def isDayName (s : String) : Bool :=
  ["Mon", "Tue", "Wed", "Thu", "Fri", "Sat", "Sun"].contains s

/-- Three-letter month abbreviations of the time layout. -/
def monthNumber : String → Option Nat
  | "Jan" => some 1
  | "Feb" => some 2
  | "Mar" => some 3
  | "Apr" => some 4
  | "May" => some 5
  | "Jun" => some 6
  | "Jul" => some 7
  | "Aug" => some 8
  | "Sep" => some 9
  | "Oct" => some 10
  | "Nov" => some 11
  | "Dec" => some 12
  | _ => none

/-- Gregorian leap-year rule. -/
def isLeapYear (y : Nat) : Bool :=
  y % 4 = 0 && (y % 100 ≠ 0 || y % 400 = 0)

/-- Days in a month of the proleptic Gregorian calendar. -/
def daysInMonth (y : Nat) : Nat → Nat
  | 1 => 31
  | 2 => if isLeapYear y then 29 else 28
  | 3 => 31
  | 4 => 30
  | 5 => 31
  | 6 => 30
  | 7 => 31
  | 8 => 31
  | 9 => 30
  | 10 => 31
  | 11 => 30
  | 12 => 31
  | _ => 0

/-- Days from the Unix epoch to the given civil date (proleptic Gregorian). -/
def daysFromCivil (y : Int) (m d : Nat) : Int :=
  let y2 : Int := if m ≤ 2 then y - 1 else y
  let era : Int := (if 0 ≤ y2 then y2 else y2 - 399) / 400
  let yoe : Int := y2 - era * 400
  let mp : Int := (Int.ofNat m + 9) % 12
  let doy : Int := (153 * mp + 2) / 5 + Int.ofNat d - 1
  let doe : Int := yoe * 365 + yoe / 4 - yoe / 100 + doy
  era * 146097 + doe - 719468

/-- Modelled from the spec: the fixed-layout branch of parseTime (the external
time.Parse with layout "Mon Jan _2 15:04 2006"): day-of-week name, month
abbreviation, space-padded one-or-two-digit day, 24h hour, two-digit minute
and four-digit year, interpreted as UTC and returned as Unix epoch seconds. -/
def parseTimeLayout (s : String) : Option Int :=
  match s.data with
  | w1 :: w2 :: w3 :: ' ' :: m1 :: m2 :: m3 :: ' ' :: rest =>
    if isDayName (String.mk [w1, w2, w3]) then
      match monthNumber (String.mk [m1, m2, m3]) with
      | some month =>
        let rest2 := match rest with
          | ' ' :: r => r
          | r => r
        match read1or2 rest2 with
        | some (day, ' ' :: afterDay) =>
          match read1or2 afterDay with
          | some (hour, ':' :: afterHour) =>
            match read2 afterHour with
            | some (minute, ' ' :: afterMin) =>
              match read4 afterMin with
              | some (year, []) =>
                if hour ≤ 23 && minute ≤ 59 && 1 ≤ day && day ≤ daysInMonth year month then
                  some (daysFromCivil (Int.ofNat year) month day * 86400
                        + Int.ofNat (hour * 3600 + minute * 60))
                else none
              | _ => none
            | _ => none
          | _ => none
        | _ => none
      | none => none
    else none
  | _ => none

/-- The instant of the zero value of time.Time (January 1 of year 1, UTC), in
Unix epoch seconds. -/
def goTimeZeroSec : Int := -62135596800

/-- parseTime: trim, try a base-10 integer parse as Unix epoch seconds first,
else the fixed human-readable layout; the result is a UTC instant. -/
def parseTime (str : String) : Option Int :=
  let s := String.mk (trimSpaceList str.data)
  match goParseInt s with
  | some v => some v
  | none => parseTimeLayout s

/-- Properties.Time parses the value as either a Unix timestamp or a
human-readable time, as a UTC instant in epoch seconds. -/
def Properties.Time (p : Properties) (property : PropName) : TimeResult :=
  match mapFind p property with
  | some prop =>
    if prop.value ≠ "" ∧ prop.value ≠ "-" then
      match parseTime prop.value with
      | some v => (v, true)
      | none => (goTimeZeroSec, false)
    else (goTimeZeroSec, false)
  | none => (goTimeZeroSec, false)

/-- A Dataset: a name together with its filtered property store. -/
structure Dataset where
  name : String
  properties : Properties
deriving DecidableEq, Repr

/-- The loop body of the entity-wrapper constructors: keep a property only
when its entity name equals the wrapper's name. -/
def keepEntityStep (name : String) (props : Properties) (kv : String × Property) :
    Properties :=
  if kv.2.name == name then mapSet props kv.2.property kv.2 else props

/-- NewDataset keeps only the given properties whose entity name equals the
dataset's name. -/
def NewDataset (name : String) (properties : Properties) : Dataset :=
  ⟨name, properties.foldl (keepEntityStep name) []⟩

/-- A Pool: a name together with its filtered property store. -/
structure Pool where
  name : String
  properties : Properties
deriving DecidableEq, Repr

/-- newPool keeps only the given properties whose entity name equals the
pool's name. -/
def newPool (name : String) (properties : Properties) : Pool :=
  ⟨name, properties.foldl (keepEntityStep name) []⟩

/-- Options for creating a new dataset, with the Go map of properties played
by an association list. -/
structure CreateDatasetOptions where
  name : String
  properties : List (String × String)
  createParents : Bool
  unmounted : Bool
  volumeSize : String
  blockSize : String
  sparse : Bool
deriving DecidableEq, Repr

/-- The argument list CreateDataset builds and passes to the zfs binary. -/
def createDatasetArgs (o : CreateDatasetOptions) : List String :=
  let args := ["create"]
  let args := if o.createParents then args ++ ["-p"] else args
  let args :=
    if o.volumeSize == "" then
      if o.unmounted then args ++ ["-u"] else args
    else
      let args := if o.blockSize != "" then args ++ ["-b", o.blockSize] else args
      if o.sparse then args ++ ["-s"] else args
  let args := args ++ propertyMapFlags "-o" o.properties
  let args := if o.volumeSize != "" then args ++ ["-V", o.volumeSize] else args
  args ++ [o.name]

/-- The field records[0][0] that the single-value query paths read from the
decoded output, as an optional value. -/
def firstField (records : List (List String)) : Option String :=
  records.head?.bind (fun r => r.head?)

/-- A one-entry property store, for stating accessor behavior on a concrete
raw value. -/
def singleStore (property value : String) : Properties :=
  [(property, ⟨"tank", property, value, "-"⟩)]

/-- A record is accepted by the property-map builder exactly when it has 4
fields and a non-empty first (entity-name) field. -/
def acceptedRecord (rec : List String) : Bool :=
  rec.length == 4 && rec.headD "" != ""

/-- A record addresses the given entity name and property name. -/
def recKeyMatch (rec : List String) (e p : String) : Bool :=
  match rec with
  | a :: b :: _ => a == e && b == p
  | _ => false

/-- The Property built from an accepted record's four fields. -/
def recProp (rec : List String) : Property :=
  match rec with
  | a :: b :: c :: d :: _ => ⟨a, b, c, d⟩
  | _ => ⟨"", "", "", ""⟩

/-- Lookup of one property of one entity in the output of newProperties. -/
def lookup2 (r : List (String × Properties)) (e p : String) : Option Property :=
  (mapFind r e).bind (fun ps => mapFind ps p)

lemma oor_none_right (a : Option α) : oor a none = a := by
  cases a <;> rfl

lemma oor_assoc (a b c : Option α) : oor (oor a b) c = oor a (oor b c) := by
  cases a <;> rfl

lemma oor_map (f : α → β) (a b : Option α) : (oor a b).map f = oor (a.map f) (b.map f) := by
  cases a <;> rfl

lemma find?_append_oor (q : α → Bool) :
    ∀ l1 l2 : List α, (l1 ++ l2).find? q = oor (l1.find? q) (l2.find? q)
  | [], l2 => rfl
  | a :: l1, l2 => by
    cases hqa : q a <;>
      simp [List.find?_cons, hqa, find?_append_oor q l1 l2, oor]

lemma find?_filterNe (k k2 : String) (h : k2 ≠ k) :
    ∀ m : List (String × α),
      (m.filter (fun kv => kv.1 != k)).find? (fun kv => kv.1 == k2)
        = m.find? (fun kv => kv.1 == k2)
  | [] => rfl
  | (a, b) :: m => by
    by_cases hak : a = k
    · have h1 : (a != k) = false := by
        simp [hak]
      have h2 : (a == k2) = false := by
        simp [hak, Ne.symm h]
      simp only [List.filter_cons, h1, Bool.false_eq_true, if_false, List.find?_cons, h2]
      exact find?_filterNe k k2 h m
    · have h1 : (a != k) = true := by
        simp [hak]
      cases hak2 : (a == k2)
      · simp only [List.filter_cons, h1, if_true, List.find?_cons, hak2]
        exact find?_filterNe k k2 h m
      · simp only [List.filter_cons, h1, if_true, List.find?_cons, hak2]

lemma find?_filterSame (k : String) :
    ∀ m : List (String × α),
      (m.filter (fun kv => kv.1 != k)).find? (fun kv => kv.1 == k) = none
  | [] => rfl
  | (a, b) :: m => by
    by_cases hak : a = k
    · subst hak
      simp [List.filter_cons, find?_filterSame a m]
    · have h2 : (a != k) = true := by
        simp [hak]
      have h3 : (a == k) = false := by
        simp [hak]
      simp [List.filter_cons, List.find?_cons, h2, h3, find?_filterSame k m]

lemma mapFind_mapSet_self (m : List (String × α)) (k : String) (v : α) :
    mapFind (mapSet m k v) k = some v := by
  unfold mapFind mapSet
  rw [find?_append_oor, find?_filterSame]
  simp [List.find?_cons, oor]

lemma mapFind_mapSet_ne (m : List (String × α)) (k : String) (v : α) (k2 : String)
    (h : k2 ≠ k) : mapFind (mapSet m k v) k2 = mapFind m k2 := by
  unfold mapFind mapSet
  rw [find?_append_oor, find?_filterNe k k2 h]
  have h3 : (k == k2) = false := by
    simp [Ne.symm h]
  simp [List.find?_cons, h3, oor_none_right]

lemma splitOnChar_ne_nil (sep : Char) : ∀ cs : List Char, splitOnChar sep cs ≠ []
  | [] => by simp [splitOnChar]
  | c :: cs => by
    simp only [splitOnChar]
    cases hs : splitOnChar sep cs with
    | nil => simp
    | cons h1 t =>
      by_cases hc : c = sep <;> simp [hc]

lemma splitOnChar_length (sep : Char) :
    ∀ cs : List Char, (splitOnChar sep cs).length = cs.count sep + 1
  | [] => by simp [splitOnChar]
  | c :: cs => by
    have ih := splitOnChar_length sep cs
    have hne := splitOnChar_ne_nil sep cs
    simp only [splitOnChar]
    cases hs : splitOnChar sep cs with
    | nil => exact absurd hs hne
    | cons h1 t =>
      rw [hs] at ih
      by_cases hc : c = sep
      · subst hc
        simp only [List.count_cons, if_pos rfl, beq_self_eq_true, if_true]
        simp only [List.length_cons] at ih ⊢
        omega
      · have hb : (c == sep) = false := by
          simp [hc]
        simp only [List.count_cons, hb, if_false, Bool.false_eq_true]
        simp only [if_neg hc, List.length_cons] at ih ⊢
        omega

lemma splitOnChar_concat_sep (sep : Char) :
    ∀ cs : List Char, splitOnChar sep (cs ++ [sep]) = splitOnChar sep cs ++ [[]]
  | [] => by simp [splitOnChar]
  | c :: cs => by
    have ih := splitOnChar_concat_sep sep cs
    have hne := splitOnChar_ne_nil sep cs
    cases hs : splitOnChar sep cs with
    | nil => exact absurd hs hne
    | cons h1 t =>
      simp only [List.cons_append, splitOnChar, List.append_eq]
      rw [ih, hs]
      by_cases hc : c = sep <;> simp [hc]

lemma parseBool_iff (v : String) :
    parseBool v = true ↔ v ∈ ["on", "On", "ON", "enabled", "Enabled", "ENABLED"] := by
  unfold parseBool
  split <;> simp_all

/-- C1: the claim says a property map containing an empty name or the reserved
name "all" is rejected by the write-path encoder with a typed
invalid-property failure and no argument list; the encoder in the source has
no failure path at all and, evaluated at those inputs, produces argument lists
containing the invalid names, which CreateDataset passes to the external
command. -/
theorem propertyMapFlags_accepts_invalid_names :
    propertyMapFlags "-o" [("", "off")] = ["-o", "=off"]
    ∧ propertyMapFlags "-o" [("all", "what"), ("quota", "10G")]
        = ["-o", "all=what", "-o", "quota=10G"]
    ∧ createDatasetArgs ⟨"tank/my-dataset", [("", "off")], false, false, "", "", false⟩
        = ["create", "-o", "=off", "tank/my-dataset"] :=
  ⟨rfl, rfl, rfl⟩

/-- ASCII case folding of a string's codepoints, to state case-insensitive
equality of raw values. -/
def lowerCodes (s : String) : List Nat :=
  s.data.map (fun c => if 65 ≤ c.toNat && c.toNat ≤ 90 then c.toNat + 32 else c.toNat)

/-- C4 counterexample: the raw value "oN" case-insensitively equals "on", yet
the Bool accessor decodes it, present, to false: decoding is not
case-insensitive equality with "on" or "enabled". -/
theorem bool_not_case_insensitive :
    lowerCodes "oN" = lowerCodes "on"
    ∧ Properties.Bool (singleStore "overlay" "oN") "overlay" = (false, true)
    ∧ ¬ ((Properties.Bool (singleStore "overlay" "oN") "overlay").1 = true ↔
        (lowerCodes "oN" = lowerCodes "on" ∨ lowerCodes "oN" = lowerCodes "enabled")) := by
  decide

/-- C4 (amended): presence is true exactly when the key is present with a raw
value that is neither "" nor "-"; a present value decodes to true exactly when
it is one of the six exact spellings on, On, ON, enabled, Enabled, ENABLED,
and to false for every other string, with no failure state. -/
theorem bool_accessor_exact_spellings (ps : Properties) (k : String) :
    ((Properties.Bool ps k).2 = true ↔
      ∃ pr, mapFind ps k = some pr ∧ pr.value ≠ "" ∧ pr.value ≠ "-")
    ∧ (∀ pr, mapFind ps k = some pr → pr.value ≠ "" → pr.value ≠ "-" →
        Properties.Bool ps k = (parseBool pr.value, true)
        ∧ (parseBool pr.value = true ↔
            pr.value ∈ ["on", "On", "ON", "enabled", "Enabled", "ENABLED"])) := by
  constructor
  · constructor
    · intro h
      cases hm : mapFind ps k with
      | none =>
        rw [show Properties.Bool ps k = (false, false) by
          simp [Properties.Bool, hm]] at h
        simp at h
      | some pr =>
        by_cases hc : pr.value ≠ "" ∧ pr.value ≠ "-"
        · exact ⟨pr, rfl, hc.1, hc.2⟩
        · rw [show Properties.Bool ps k = (false, false) by
            simp only [Properties.Bool, hm, if_neg hc]] at h
          simp at h
    · rintro ⟨pr, hm, h1, h2⟩
      simp [Properties.Bool, hm, h1, h2]
  · intro pr hm h1 h2
    exact ⟨by simp [Properties.Bool, hm, h1, h2], parseBool_iff pr.value⟩

/-- Witness for the amended C4 theorem at a concrete store and value. -/
theorem bool_accessor_exact_spellings_witness :
    Properties.Bool (singleStore "overlay" "off") "overlay" = (parseBool "off", true) :=
  ((bool_accessor_exact_spellings (singleStore "overlay" "off") "overlay").2
    ⟨"tank", "overlay", "off", "-"⟩ rfl (by decide) (by decide)).1

/-- C9: the tabular decoder returns exactly one record per newline-separated
line — the record count is the newline count plus one, each record being the
tab-split of its line — with no error conditions; an input ending in a
newline yields a trailing record for the empty final line, the one-field
record [""], which downstream stages must filter out. -/
theorem parseTabular_lines (data : List Char) :
    parseTabular data
        = (splitOnChar '\n' data).map (fun line => (splitOnChar '\t' line).map String.mk)
    ∧ (parseTabular data).length = data.count '\n' + 1
    ∧ (data.getLast? = some '\n' → (parseTabular data).getLast? = some [""]) := by
  refine ⟨rfl, ?_, ?_⟩
  · unfold parseTabular
    rw [List.length_map, splitOnChar_length]
  · intro h
    have hne : data ≠ [] := by
      intro he
      rw [he] at h
      simp at h
    have hl : data.getLast hne = '\n' := by
      rw [List.getLast?_eq_getLast data hne] at h
      exact Option.some.inj h
    have hdecomp : data.dropLast ++ ['\n'] = data := by
      rw [← hl]
      exact List.dropLast_append_getLast hne
    rw [← hdecomp]
    unfold parseTabular
    rw [splitOnChar_concat_sep, List.map_append]
    simp only [List.map_cons, List.map_nil]
    rw [List.getLast?_concat]
    rfl

/-- Witness for the conditional part of the C9 theorem at a concrete buffer. -/
theorem parseTabular_lines_witness :
    (parseTabular ['a', '\n']).getLast? = some [""] :=
  (parseTabular_lines ['a', '\n']).2.2 rfl

/-- C10: for every input buffer, including the empty one, the decoder returns
a non-empty record list whose records each have at least one field, so
reading field [0][0] after a successful command is always in bounds, and an
empty stdout yields the empty string. -/
theorem parseTabular_first_field_safe (data : List Char) :
    0 < (parseTabular data).length
    ∧ (∀ r ∈ parseTabular data, 0 < r.length)
    ∧ (∃ s, firstField (parseTabular data) = some s)
    ∧ firstField (parseTabular []) = some "" := by
  refine ⟨?_, ?_, ?_, rfl⟩
  · unfold parseTabular
    rw [List.length_map]
    exact List.length_pos.mpr (splitOnChar_ne_nil '\n' data)
  · intro r hr
    unfold parseTabular at hr
    rcases List.mem_map.mp hr with ⟨line, _, hline⟩
    rw [← hline, List.length_map]
    exact List.length_pos.mpr (splitOnChar_ne_nil '\t' line)
  · have hne : parseTabular data ≠ [] := by
      unfold parseTabular
      intro hnil
      exact splitOnChar_ne_nil '\n' data (List.map_eq_nil_iff.mp hnil)
    rcases List.exists_cons_of_ne_nil hne with ⟨r0, rest, hr0⟩
    have hr0mem : r0 ∈ parseTabular data := by
      rw [hr0]
      exact List.mem_cons_self r0 rest
    have hr0ne : r0 ≠ [] := by
      unfold parseTabular at hr0mem
      rcases List.mem_map.mp hr0mem with ⟨line, _, hline⟩
      rw [← hline]
      intro hmapnil
      exact splitOnChar_ne_nil '\t' line (List.map_eq_nil_iff.mp hmapnil)
    rcases List.exists_cons_of_ne_nil hr0ne with ⟨s0, srest, hs0⟩
    refine ⟨s0, ?_⟩
    unfold firstField
    rw [hr0, hs0]
    rfl

/-- Witness for the C10 theorem at a concrete buffer, reading the first
field. -/
theorem parseTabular_first_field_safe_witness :
    0 < (parseTabular ['3', '3', '6', 'M']).length ∧
      firstField (parseTabular ['3', '3', '6', 'M']) = some "336M" :=
  ⟨(parseTabular_first_field_safe ['3', '3', '6', 'M']).1, rfl⟩

/-- C3: for every typed accessor and every property name, a raw value "-" or a
key absent from the store yields presence false together with the type's zero
value: empty string, false, 0, 0, 0, the zero time, 0. -/
theorem accessors_sentinel_absent (ps : Properties) (k : String)
    (h : mapFind ps k = none ∨ ∃ pr, mapFind ps k = some pr ∧ pr.value = "-") :
    Properties.String ps k = ("", false)
    ∧ Properties.Bool ps k = (false, false)
    ∧ Properties.Bytes ps k = (0, false)
    ∧ Properties.Percent ps k = (0, false)
    ∧ Properties.Ratio ps k = (0, false)
    ∧ Properties.Time ps k = (goTimeZeroSec, false)
    ∧ Properties.Uint64 ps k = (0, false) := by
  rcases h with hm | ⟨pr, hm, hv⟩
  · exact ⟨by simp [Properties.String, hm], by simp [Properties.Bool, hm],
      by simp [Properties.Bytes, hm], by simp [Properties.Percent, hm],
      by simp [Properties.Ratio, hm], by simp [Properties.Time, hm],
      by simp [Properties.Uint64, hm]⟩
  · exact ⟨by simp [Properties.String, hm, hv], by simp [Properties.Bool, hm, hv],
      by simp [Properties.Bytes, hm, hv], by simp [Properties.Percent, hm, hv],
      by simp [Properties.Ratio, hm, hv], by simp [Properties.Time, hm, hv],
      by simp [Properties.Uint64, hm, hv]⟩

/-- Witness for the C3 theorem: the sentinel "-" on a concrete store. -/
theorem accessors_sentinel_absent_witness :
    Properties.String (singleStore "size" "-") "size" = ("", false)
    ∧ Properties.Time (singleStore "size" "-") "size" = (goTimeZeroSec, false) :=
  ⟨(accessors_sentinel_absent (singleStore "size" "-") "size"
      (Or.inr ⟨⟨"tank", "size", "-", "-"⟩, rfl, rfl⟩)).1,
   (accessors_sentinel_absent (singleStore "size" "-") "size"
      (Or.inr ⟨⟨"tank", "size", "-", "-"⟩, rfl, rfl⟩)).2.2.2.2.2.1⟩

/-- C8: the Time accessor treats "", "-" and a missing key as absent; a
present value is first tried as base-10 Unix epoch seconds and otherwise
parsed with the fixed layout, as a UTC instant in both cases; the raw values
"1651487819" and "Mon May  2 10:36 2022" decode to the same UTC instant
modulo seconds (the same minute). -/
theorem time_accessor_epoch_first (str : String) (v : Int)
    (hint : goParseInt (String.mk (trimSpaceList str.data)) = some v) :
    parseTime str = some v
    ∧ (∀ s2 : String, goParseInt (String.mk (trimSpaceList s2.data)) = none →
        parseTime s2 = parseTimeLayout (String.mk (trimSpaceList s2.data)))
    ∧ (∀ ps : Properties, ∀ k : String,
        (mapFind ps k = none ∨
          ∃ pr, mapFind ps k = some pr ∧ (pr.value = "" ∨ pr.value = "-")) →
        Properties.Time ps k = (goTimeZeroSec, false))
    ∧ Properties.Time (singleStore "creation" "1651487819") "creation" = (1651487819, true)
    ∧ Properties.Time (singleStore "creation" "Mon May  2 10:36 2022") "creation"
        = (1651487760, true)
    ∧ (1651487819 : Int) / 60 = (1651487760 : Int) / 60 := by
  refine ⟨?_, ?_, ?_, rfl, rfl, by decide⟩
  · simp only [parseTime]
    rw [hint]
  · intro s2 h2
    simp only [parseTime]
    rw [h2]
  · intro ps k h
    rcases h with hm | ⟨pr, hm, hv⟩
    · simp [Properties.Time, hm]
    · rcases hv with hv | hv <;> simp [Properties.Time, hm, hv]

/-- Witness for the C8 theorem at the concrete epoch value. -/
theorem time_accessor_epoch_first_witness :
    parseTime "1651487819" = some 1651487819 :=
  (time_accessor_epoch_first "1651487819" 1651487819 rfl).1

lemma foldl_pairs (flag : String) :
    ∀ (l : List String) (acc : List String),
      l.foldl (fun r prop => r ++ [flag, prop]) acc = acc ++ l.flatMap (fun s => [flag, s])
  | [], acc => by simp
  | p :: l, acc => by
    rw [List.foldl_cons, foldl_pairs flag l (acc ++ [flag, p])]
    simp

lemma sortStrings_eq_of_perm {l1 l2 : List String} (h : l1.Perm l2) :
    sortStrings l1 = sortStrings l2 :=
  List.eq_of_perm_of_sorted
    (((List.perm_insertionSort strLe l1).trans h).trans
      (List.perm_insertionSort strLe l2).symm)
    (List.sorted_insertionSort strLe l1)
    (List.sorted_insertionSort strLe l2)

/-- C5: the command-argument encoder emits the flat list of repeated
[flag, "name=value"] pairs in ascending lexical order of the combined
"name=value" strings, identically for every iteration order of the same
logical map; the empty map yields the empty list, and the concrete example
map is rendered exactly as claimed. -/
theorem propertyMapFlags_sorted_deterministic (flag : String)
    (l1 l2 : List (String × String)) (h : l1.Perm l2) :
    propertyMapFlags flag l1 = propertyMapFlags flag l2
    ∧ propertyMapFlags flag [] = []
    ∧ List.Sorted strLe (sortStrings (l1.map (fun kv => kv.1 ++ "=" ++ kv.2)))
    ∧ propertyMapFlags flag l1
        = (sortStrings (l1.map (fun kv => kv.1 ++ "=" ++ kv.2))).flatMap (fun s => [flag, s])
    ∧ propertyMapFlags "-o" [("quota", "10G"), ("feature@async_destroy", "disabled")]
        = ["-o", "feature@async_destroy=disabled", "-o", "quota=10G"] := by
  refine ⟨?_, rfl, List.sorted_insertionSort strLe _, ?_, rfl⟩
  · unfold propertyMapFlags
    rw [sortStrings_eq_of_perm (h.map (fun kv => kv.1 ++ "=" ++ kv.2))]
  · unfold propertyMapFlags
    rw [foldl_pairs]
    simp

/-- Witness for the C5 theorem: two iteration orders of the same two-entry
map produce identical argument lists. -/
theorem propertyMapFlags_sorted_deterministic_witness :
    propertyMapFlags "-o" [("a", "1"), ("b", "2")]
      = propertyMapFlags "-o" [("b", "2"), ("a", "1")] :=
  (propertyMapFlags_sorted_deterministic "-o" [("a", "1"), ("b", "2")]
    [("b", "2"), ("a", "1")] (List.Perm.swap ("b", "2") ("a", "1") [])).1

lemma mapFind_keepEntityStep (name : String) (props : Properties) (kv : String × Property)
    (p : String) :
    mapFind (keepEntityStep name props kv) p
      = oor (if (kv.2.name == name && kv.2.property == p) = true then some kv.2 else none)
            (mapFind props p) := by
  unfold keepEntityStep
  cases hn : (kv.2.name == name) with
  | false => simp [hn, oor]
  | true =>
    by_cases hp : p = kv.2.property
    · subst hp
      simp [hn, mapFind_mapSet_self, oor]
    · have hp2 : (kv.2.property == p) = false :=
        beq_eq_false_iff_ne.mpr (fun hh => hp hh.symm)
      simp [hn, hp2, mapFind_mapSet_ne props kv.2.property kv.2 p hp, oor]

lemma mapFind_filterFold (name : String) (p : String) (input : Properties) :
    mapFind (input.foldl (keepEntityStep name) []) p
      = (input.reverse.find?
          (fun kv => kv.2.name == name && kv.2.property == p)).map (fun kv => kv.2) := by
  induction input using List.reverseRecOn with
  | nil => rfl
  | append_singleton l kv ih =>
    rw [List.foldl_append, List.foldl_cons, List.foldl_nil, mapFind_keepEntityStep,
        List.reverse_append, ih]
    cases hq : (kv.2.name == name && kv.2.property == p) <;>
      simp [List.find?_cons, hq, oor]

/-- C7: the Dataset and Pool wrappers retain exactly the input entries whose
entity name equals the wrapper's name under exact string equality (the later
entry winning per property name), and in particular a store holding entries
for both "tank/a" and "tank/a/sub" filtered for "tank/a" keeps only the
"tank/a" entries, with no prefix-based leakage. -/
theorem entity_wrappers_filter_exact (name : String) (input : Properties) (p : String) :
    mapFind (NewDataset name input).properties p
        = (input.reverse.find?
            (fun kv => kv.2.name == name && kv.2.property == p)).map (fun kv => kv.2)
    ∧ mapFind (newPool name input).properties p
        = (input.reverse.find?
            (fun kv => kv.2.name == name && kv.2.property == p)).map (fun kv => kv.2)
    ∧ NewDataset "tank/a"
        [("used", ⟨"tank/a", "used", "10", "-"⟩),
         ("quota", ⟨"tank/a/sub", "quota", "5", "-"⟩)]
        = ⟨"tank/a", [("used", ⟨"tank/a", "used", "10", "-"⟩)]⟩
    ∧ newPool "tank"
        [("size", ⟨"tank", "size", "336M", "-"⟩), ("free", ⟨"tank2", "free", "1", "-"⟩)]
        = ⟨"tank", [("size", ⟨"tank", "size", "336M", "-"⟩)]⟩ :=
  ⟨mapFind_filterFold name p input, mapFind_filterFold name p input, rfl, rfl⟩

lemma lookup2_newPropertiesStep (r : List (String × Properties)) (rec : List String)
    (e p : String) :
    lookup2 (newPropertiesStep r rec) e p
      = oor (if (acceptedRecord rec && recKeyMatch rec e p) = true
              then some (recProp rec) else none)
            (lookup2 r e p) := by
  rcases rec with _ | ⟨a, _ | ⟨b, _ | ⟨c, _ | ⟨d, _ | ⟨x, rest⟩⟩⟩⟩⟩
  · simp [newPropertiesStep, acceptedRecord, oor]
  · simp [newPropertiesStep, acceptedRecord, oor]
  · simp [newPropertiesStep, acceptedRecord, oor]
  · simp [newPropertiesStep, acceptedRecord, oor]
  · by_cases ha : a = ""
    · subst ha
      simp [newPropertiesStep, acceptedRecord, oor]
    · have hacc : acceptedRecord [a, b, c, d] = true := by
        simp [acceptedRecord, ha]
      rw [show newPropertiesStep r [a, b, c, d]
            = mapSet r a (mapSet ((mapFind r a).getD []) b ⟨a, b, c, d⟩) by
          simp [newPropertiesStep, ha]]
      by_cases he : e = a
      · subst he
        unfold lookup2
        rw [mapFind_mapSet_self]
        by_cases hp : p = b
        · subst hp
          rw [Option.some_bind, mapFind_mapSet_self]
          simp [hacc, recKeyMatch, recProp, oor]
        · rw [Option.some_bind, mapFind_mapSet_ne _ b _ p hp]
          have hp2 : (b == p) = false := beq_eq_false_iff_ne.mpr (fun hh => hp hh.symm)
          cases hma : mapFind r e with
          | none => simp [recKeyMatch, hp2, oor, hma, mapFind]
          | some ps => simp [recKeyMatch, hp2, oor, hma]
      · unfold lookup2
        rw [mapFind_mapSet_ne r a _ e he]
        have he2 : (a == e) = false := beq_eq_false_iff_ne.mpr (fun hh => he hh.symm)
        simp [recKeyMatch, he2, oor]
  · simp [newPropertiesStep, acceptedRecord, oor]

lemma lookup2_newProperties (e p : String) (records : List (List String)) :
    lookup2 (newProperties records) e p
      = (records.reverse.find?
          (fun rec => acceptedRecord rec && recKeyMatch rec e p)).map recProp := by
  unfold newProperties
  induction records using List.reverseRecOn with
  | nil => rfl
  | append_singleton l rec ih =>
    rw [List.foldl_append, List.foldl_cons, List.foldl_nil, lookup2_newPropertiesStep,
        List.reverse_append, ih]
    cases hq : (acceptedRecord rec && recKeyMatch rec e p) <;>
      simp [List.find?_cons, hq, oor]

lemma newPropertiesStep_skip (r : List (String × Properties)) (rec : List String)
    (h : acceptedRecord rec = false) : newPropertiesStep r rec = r := by
  rcases rec with _ | ⟨a, _ | ⟨b, _ | ⟨c, _ | ⟨d, _ | ⟨x, rest⟩⟩⟩⟩⟩ <;>
    simp_all [newPropertiesStep, acceptedRecord]

lemma newProperties_filter_aux :
    ∀ (records : List (List String)) (acc : List (String × Properties)),
      records.foldl newPropertiesStep acc
        = (records.filter acceptedRecord).foldl newPropertiesStep acc
  | [], acc => rfl
  | rec :: rs, acc => by
    cases hq : acceptedRecord rec with
    | true =>
      rw [List.filter_cons, if_pos hq, List.foldl_cons, List.foldl_cons,
          newProperties_filter_aux rs (newPropertiesStep acc rec)]
    | false =>
      rw [List.filter_cons, List.foldl_cons, newPropertiesStep_skip acc rec hq]
      simp only [hq, Bool.false_eq_true, if_false]
      exact newProperties_filter_aux rs acc

/-- C6: the property-map builder uses a record exactly when it has 4 fields
and a non-empty entity-name field — all other records are discarded with no
effect and no error — and groups accepted records by entity name and property
name, the last accepted record in input order winning for a repeated
(entityName, propertyName) pair. -/
theorem newProperties_accept_last_wins (records : List (List String)) (e p : String) :
    newProperties records = newProperties (records.filter acceptedRecord)
    ∧ lookup2 (newProperties records) e p
        = (records.reverse.find?
            (fun rec => acceptedRecord rec && recKeyMatch rec e p)).map recProp :=
  ⟨newProperties_filter_aux records [], lookup2_newProperties e p records⟩

lemma takeWhileAll (p : Char → Bool) :
    ∀ l : List Char, (∀ c ∈ l, p c = true) → List.takeWhile p l = l
  | [], _ => rfl
  | c :: l, h => by
    rw [List.takeWhile_cons, if_pos (h c (List.mem_cons_self c l)),
        takeWhileAll p l (fun x hx => h x (List.mem_cons_of_mem c hx))]

lemma dropWhileAll (p : Char → Bool) :
    ∀ l : List Char, (∀ c ∈ l, p c = true) → List.dropWhile p l = []
  | [], _ => rfl
  | c :: l, h => by
    rw [List.dropWhile_cons, if_pos (h c (List.mem_cons_self c l))]
    exact dropWhileAll p l (fun x hx => h x (List.mem_cons_of_mem c hx))

lemma takeWhileApp (p : Char → Bool) :
    ∀ l r : List Char, (∀ c ∈ l, p c = true) →
      List.takeWhile p (l ++ r) = l ++ List.takeWhile p r
  | [], r, _ => rfl
  | c :: l, r, h => by
    rw [List.cons_append, List.takeWhile_cons, if_pos (h c (List.mem_cons_self c l)),
        takeWhileApp p l r (fun x hx => h x (List.mem_cons_of_mem c hx))]
    rfl

lemma dropWhileApp (p : Char → Bool) :
    ∀ l r : List Char, (∀ c ∈ l, p c = true) →
      List.dropWhile p (l ++ r) = List.dropWhile p r
  | [], r, _ => rfl
  | c :: l, r, h => by
    rw [List.cons_append, List.dropWhile_cons, if_pos (h c (List.mem_cons_self c l))]
    exact dropWhileApp p l r (fun x hx => h x (List.mem_cons_of_mem c hx))

lemma dropWhileNone (p : Char → Bool) :
    ∀ l : List Char, (∀ c ∈ l, p c = false) → List.dropWhile p l = l
  | [], _ => rfl
  | c :: l, h => by
    rw [List.dropWhile_cons]
    simp [h c (List.mem_cons_self c l)]

lemma digit_not_space (c : Char) (h : isDigitChar c = true) : isSpaceChar c = false := by
  cases hs : isSpaceChar c
  · rfl
  · exfalso
    simp only [isSpaceChar, Bool.or_eq_true, decide_eq_true_eq] at hs
    rcases hs with ((((h1 | h1) | h1) | h1) | h1) | h1 <;>
      (subst h1; exact absurd h (by decide))

lemma trimSpaceAll (cs : List Char) (h : ∀ c ∈ cs, isSpaceChar c = false) :
    trimSpaceList cs = cs := by
  unfold trimSpaceList
  rw [dropWhileNone _ cs h,
      dropWhileNone _ cs.reverse (fun c hc => h c (List.mem_reverse.mp hc))]
  exact List.reverse_reverse cs

lemma isEmpty_false_of_ne_nil {l : List Char} (h : l ≠ []) : l.isEmpty = false := by
  cases l with
  | nil => exact absurd rfl h
  | cons x xs => rfl

lemma bytes_digits_suffix (ds : List Char) (u : Char) (mult : Nat)
    (hds : ds ≠ []) (hdig : ∀ c ∈ ds, isDigitChar c = true)
    (hlet : isAsciiLetter u = true) (hnd : isDigitChar u = false)
    (hns : isSpaceChar u = false)
    (hmult : unitMultiplier (String.mk [u, 'i', 'B']) = some mult)
    (hbound : digitsToNat ds * mult < 2 ^ 64) :
    Properties.Bytes (singleStore "size" (String.mk (ds ++ [u]))) "size"
      = (digitsToNat ds * mult, true) := by
  have hem : ds.isEmpty = false := isEmpty_false_of_ne_nil hds
  have hmkdata : (String.mk (ds ++ [u])).data = ds ++ [u] := rfl
  have hnos : ∀ c ∈ ds ++ [u], isSpaceChar c = false := by
    intro c hc
    rcases List.mem_append.mp hc with hcl | hcr
    · exact digit_not_space c (hdig c hcl)
    · rw [List.mem_singleton.mp hcr]
      exact hns
  have htrim : trimSpaceList (ds ++ [u]) = ds ++ [u] := trimSpaceAll _ hnos
  have htake : List.takeWhile isDigitChar (ds ++ [u]) = ds := by
    rw [takeWhileApp _ _ _ hdig, List.takeWhile_cons]
    simp [hnd]
  have hdropd : List.dropWhile isDigitChar (ds ++ [u]) = [u] := by
    rw [dropWhileApp _ _ _ hdig, List.dropWhile_cons]
    simp [hnd]
  have hdrops : List.dropWhile isSpaceChar [u] = [u] := by
    rw [List.dropWhile_cons]
    simp [hns]
  have hmatch : matchZfsIEC (ds ++ [u]) = true := by
    simp only [matchZfsIEC]
    rw [htake, hdropd, hdrops]
    simp [hem, hlet]
  have hsdata : (String.mk (ds ++ [u]) ++ "iB").data = ds ++ [u, 'i', 'B'] := by
    show (ds ++ [u]) ++ ['i', 'B'] = ds ++ [u, 'i', 'B']
    simp
  have htake2 : List.takeWhile isDigitChar (ds ++ [u, 'i', 'B']) = ds := by
    rw [takeWhileApp _ _ _ hdig, List.takeWhile_cons]
    simp [hnd]
  have hdrop2 : List.dropWhile isDigitChar (ds ++ [u, 'i', 'B']) = [u, 'i', 'B'] := by
    rw [dropWhileApp _ _ _ hdig, List.dropWhile_cons]
    simp [hnd]
  have hps : parseSize (String.mk (ds ++ [u])) = some (digitsToNat ds * mult) := by
    simp only [parseSize, hmkdata, htrim, hmatch, if_true]
    simp only [parseBytes, hsdata, htake2, hdrop2, hem, Bool.false_eq_true, if_false, hmult]
    rw [if_pos hbound]
  have hv : String.mk (ds ++ [u]) ≠ "-" := by
    intro he
    have hdata : ds ++ [u] = ['-'] := congrArg String.data he
    have hlen : ds.length + 1 = 1 := by
      have := congrArg List.length hdata
      simpa using this
    exact hds (List.length_eq_zero.mp (by omega))
  simp [Properties.Bytes, singleStore, mapFind, hv, hps]

lemma bytes_digits_plain (ds : List Char)
    (hds : ds ≠ []) (hdig : ∀ c ∈ ds, isDigitChar c = true)
    (hbound : digitsToNat ds < 2 ^ 64) :
    Properties.Bytes (singleStore "size" (String.mk ds)) "size"
      = (digitsToNat ds, true) := by
  have hem : ds.isEmpty = false := isEmpty_false_of_ne_nil hds
  have hmkdata : (String.mk ds).data = ds := rfl
  have htrim : trimSpaceList ds = ds :=
    trimSpaceAll _ (fun c hc => digit_not_space c (hdig c hc))
  have htake : List.takeWhile isDigitChar ds = ds := takeWhileAll _ ds hdig
  have hdropd : List.dropWhile isDigitChar ds = [] := dropWhileAll _ ds hdig
  have hmatch : matchZfsIEC ds = false := by
    simp only [matchZfsIEC]
    rw [hdropd]
    simp
  have hunit : unitMultiplier (String.mk []) = some 1 := rfl
  have hps : parseSize (String.mk ds) = some (digitsToNat ds) := by
    simp only [parseSize, hmkdata, htrim, hmatch, Bool.false_eq_true, if_false]
    simp only [parseBytes, hmkdata, htake, hdropd, hem, if_false, hunit]
    rw [if_pos (show digitsToNat ds * 1 < 2 ^ 64 by simpa using hbound)]
    simp
  have hv : String.mk ds ≠ "-" := by
    intro he
    have hdata : ds = ['-'] := congrArg String.data he
    have : isDigitChar '-' = true := hdig '-' (by rw [hdata]; exact List.mem_singleton_self '-')
    exact absurd this (by decide)
  simp [Properties.Bytes, singleStore, mapFind, hv, hps]

/-- C2: for every decimal digit string followed by one unit suffix among
K, M, G, T, P, the Bytes accessor returns the digits' value times the
matching power of 1024 with presence true (within the uint64 range); a plain
digit string parses as a literal byte count; "42K", "383M" and "84G" give
43008, 401604608 and 90194313216. -/
theorem bytes_unit_suffixes (ds : List Char) (suffix : String) (k : Nat)
    (hds : ds ≠ []) (hdig : ds.all isDigitChar = true)
    (hsuf : (suffix, k) ∈ [("K", 1), ("M", 2), ("G", 3), ("T", 4), ("P", 5)])
    (hbound : digitsToNat ds * 1024 ^ k < 2 ^ 64) :
    Properties.Bytes (singleStore "size" (String.mk ds ++ suffix)) "size"
        = (digitsToNat ds * 1024 ^ k, true)
    ∧ Properties.Bytes (singleStore "size" (String.mk ds)) "size" = (digitsToNat ds, true)
    ∧ Properties.Bytes (singleStore "size" "42K") "size" = (43008, true)
    ∧ Properties.Bytes (singleStore "size" "383M") "size" = (401604608, true)
    ∧ Properties.Bytes (singleStore "size" "84G") "size" = (90194313216, true) := by
  have hdig2 := List.all_eq_true.mp hdig
  have hboundp : digitsToNat ds < 2 ^ 64 :=
    lt_of_le_of_lt
      (le_mul_of_one_le_right (Nat.zero_le _) (Nat.one_le_pow k 1024 (by norm_num)))
      hbound
  refine ⟨?_, bytes_digits_plain ds hds hdig2 hboundp, rfl, rfl, rfl⟩
  simp only [List.mem_cons, List.not_mem_nil, or_false] at hsuf
  rcases hsuf with h | h | h | h | h <;>
    (injection h with hs hk
     subst hs
     subst hk)
  · exact bytes_digits_suffix ds 'K' (1024 ^ 1) hds hdig2 (by decide) (by decide) (by decide)
      (by decide) hbound
  · exact bytes_digits_suffix ds 'M' (1024 ^ 2) hds hdig2 (by decide) (by decide) (by decide)
      (by decide) hbound
  · exact bytes_digits_suffix ds 'G' (1024 ^ 3) hds hdig2 (by decide) (by decide) (by decide)
      (by decide) hbound
  · exact bytes_digits_suffix ds 'T' (1024 ^ 4) hds hdig2 (by decide) (by decide) (by decide)
      (by decide) hbound
  · exact bytes_digits_suffix ds 'P' (1024 ^ 5) hds hdig2 (by decide) (by decide) (by decide)
      (by decide) hbound

/-- Witness for the C2 theorem: the digit string "42" with suffix "K". -/
theorem bytes_unit_suffixes_witness :
    Properties.Bytes (singleStore "size" (String.mk ['4', '2'] ++ "K")) "size"
        = (digitsToNat ['4', '2'] * 1024 ^ 1, true) :=
  (bytes_unit_suffixes ['4', '2'] "K" 1 (by decide) (by decide) (by decide) (by decide)).1
